import Mathlib

/-!
Verification of the animation/tweening core of the `noon` repository
(`src/animation/mod.rs`): the `Animation<T>` state machine, its constructors
(`to`, `to_target`, `by`), fluent timing setters, the per-frame `update` /
`update_position` operations, the free `set_properties` bulk-timing function,
the closed `AnimationType` variant set and the `EntityAnimations` batch.

Machine floats (`f32`) carry timing values and progress fractions; the core
only copies timing values and feeds progress to the `Interpolate` contract,
so they are embedded as rationals. The `Interpolate` implementations, the
`EaseType` enum, `Entity` and the concrete property types live outside the
provided source and are modelled from the spec where noted.
-/

/-- Modelled from the spec: object/entity identity is an opaque addressable
reference owned by the external ECS (`bevy_ecs::entity::Entity`); embedded as
a natural-number id. -/
abbrev Entity := Nat

/-- Modelled from the spec: the easing selector (`EaseType`), an enum naming a
pure easing curve. The core only stores and copies it; the spec names the two
variants used as constructor defaults (`Quint` for `to`, `Linear` for
`to_target`/`by`). -/
inductive EaseType where
  | Linear : EaseType
  | Quint : EaseType
deriving DecidableEq, Repr

/-- The end-value specification `Value<T>`: an absolute target, a delta
relative to the lazily captured begin value, or a reference to another
object whose value is copied at resolution time. -/
inductive Value (T : Type) where
  | Absolute : T → Value T
  | Relative : T → Value T
  | From : Entity → Value T
deriving DecidableEq, Repr

/-- Modelled from the spec: the `Interpolate` capability contract — given a
begin value, an end value and a progress fraction, produce the interpolated
value. Concrete per-type math is external to the given source. -/
class Interpolate (T : Type) where
  interp : T → T → ℚ → T

/-- Modelled from the spec: a 2-D position with componentwise addition and
linear interpolation (`progress = 0` returns begin, `progress = 1` returns
end, no clamping). -/
structure Position where
  x : ℚ
  y : ℚ
deriving DecidableEq, Repr

instance : Add Position where
  add a b := ⟨a.x + b.x, a.y + b.y⟩

/-- Modelled from the spec: componentwise linear interpolation of positions. -/
def Position.interp (b e : Position) (p : ℚ) : Position :=
  ⟨b.x + (e.x - b.x) * p, b.y + (e.y - b.y) * p⟩

instance : Interpolate Position where
  interp := Position.interp

/-- Modelled from the spec: stroke-color property value; scalar payload with
linear interpolation stands in for the external color math. -/
structure StrokeColor where
  val : ℚ
deriving DecidableEq, Repr

instance : Interpolate StrokeColor where
  interp b e p := ⟨b.val + (e.val - b.val) * p⟩

/-- Modelled from the spec: fill-color property value. -/
structure FillColor where
  val : ℚ
deriving DecidableEq, Repr

instance : Interpolate FillColor where
  interp b e p := ⟨b.val + (e.val - b.val) * p⟩

/-- Modelled from the spec: angle property value. -/
structure Angle where
  val : ℚ
deriving DecidableEq, Repr

instance : Interpolate Angle where
  interp b e p := ⟨b.val + (e.val - b.val) * p⟩

/-- Modelled from the spec: size property value. -/
structure Size where
  val : ℚ
deriving DecidableEq, Repr

instance : Interpolate Size where
  interp b e p := ⟨b.val + (e.val - b.val) * p⟩

/-- Modelled from the spec: opacity property value. -/
structure Opacity where
  val : ℚ
deriving DecidableEq, Repr

instance : Interpolate Opacity where
  interp b e p := ⟨b.val + (e.val - b.val) * p⟩

/-- Modelled from the spec: path-completion fraction property value. -/
structure PathCompletion where
  val : ℚ
deriving DecidableEq, Repr

instance : Interpolate PathCompletion where
  interp b e p := ⟨b.val + (e.val - b.val) * p⟩

/-- The `Animation<T>` state machine: optional lazily captured begin value,
end specification, time window (`start_time`, `duration` in seconds), easing
selector, and the three "still defaulted / eligible for bulk override" flags.
Rust's `end` field is written `«end»` because `end` is a Lean keyword. -/
structure Animation (T : Type) where
  begin : Option T
  «end» : Value T
  duration : ℚ
  start_time : ℚ
  rate_func : EaseType
  init_duration : Bool
  init_start_time : Bool
  init_rate_func : Bool
deriving DecidableEq, Repr

/-- Constructor `Animation::to`: absolute end value, duration 3.0, start 0.0,
easing Quint, all three flags defaulted. -/
def Animation.to {T : Type} («to» : T) : Animation T :=
  { begin := none
    «end» := Value.Absolute «to»
    duration := 3
    start_time := 0
    rate_func := EaseType.Quint
    init_duration := true
    init_start_time := true
    init_rate_func := true }

/-- Constructor `Animation::to_target`: end copied from another object at
resolution time, duration 1.0, start 0.0, easing Linear. -/
def Animation.to_target {T : Type} (target : Entity) : Animation T :=
  { begin := none
    «end» := Value.From target
    duration := 1
    start_time := 0
    rate_func := EaseType.Linear
    init_duration := true
    init_start_time := true
    init_rate_func := true }

/-- Constructor `Animation::by`: relative end value (delta), duration 1.0,
start 0.0, easing Linear. Written `«by»` because `by` is a Lean keyword. -/
def Animation.«by» {T : Type} (by_ : T) : Animation T :=
  { begin := none
    «end» := Value.Relative by_
    duration := 1
    start_time := 0
    rate_func := EaseType.Linear
    init_duration := true
    init_start_time := true
    init_rate_func := true }

/-- Fluent setter `with_duration`: overwrite the field and flip its flag to
"explicitly set" (false). -/
def Animation.with_duration {T : Type} (a : Animation T) (duration : ℚ) : Animation T :=
  { a with duration := duration, init_duration := false }

/-- Fluent setter `with_start_time`. -/
def Animation.with_start_time {T : Type} (a : Animation T) (start_time : ℚ) : Animation T :=
  { a with start_time := start_time, init_start_time := false }

/-- Fluent setter `with_rate_func`. -/
def Animation.with_rate_func {T : Type} (a : Animation T) (rate_func : EaseType) : Animation T :=
  { a with rate_func := rate_func, init_rate_func := false }

/-- `has_target`: the referenced entity when `end` is `From`, else `none`. -/
def Animation.has_target {T : Type} (a : Animation T) : Option Entity :=
  match a.«end» with
  | Value.From entity => some entity
  | _ => none

/-- `init_from_target`: when `end` is `From _`, replace it with
`Absolute end`; otherwise leave the animation untouched. -/
def Animation.init_from_target {T : Type} (a : Animation T) («end» : T) : Animation T :=
  match a.«end» with
  | Value.From _ => { a with «end» := Value.Absolute «end» }
  | _ => a

/-- `Animation::update`: mutates `self` and the referenced property; embedded
as returning the new animation state and the new property value. Matches on
`(begin, end)`: interpolate when armed with an absolute end, arm (capture
begin) when unarmed with an absolute end, otherwise no-op. -/
def Animation.update {T : Type} [Interpolate T] (a : Animation T) (property : T)
    (progress : ℚ) : Animation T × T :=
  match a.begin, a.«end» with
  | some b, Value.Absolute «to» => (a, Interpolate.interp b «to» progress)
  | none, Value.Absolute _ => ({ a with begin := some property }, property)
  | _, _ => (a, property)

/-- `Animation::<Position>::update_position`: like `update`, with one extra
arm that converts a `Relative` end to `Absolute (begin + by)` when `begin`
is already set, leaving the property untouched on that call. -/
def Animation.update_position (a : Animation Position) (property : Position)
    (progress : ℚ) : Animation Position × Position :=
  match a.begin, a.«end» with
  | some b, Value.Absolute «to» => (a, Interpolate.interp b «to» progress)
  | some b, Value.Relative by_ => ({ a with «end» := Value.Absolute (b + by_) }, property)
  | none, Value.Absolute _ => ({ a with begin := some property }, property)
  | _, _ => (a, property)

/-- The free `set_properties` function: for each timing field, overwrite it
with the supplied value only while its flag is still in the defaulted state. -/
def Animation.set_properties {T : Type} (animation : Animation T) (start_time duration : ℚ)
    (rate_func : EaseType) : Animation T :=
  let a1 := if animation.init_start_time then { animation with start_time := start_time }
            else animation
  let a2 := if a1.init_duration then { a1 with duration := duration } else a1
  if a2.init_rate_func then { a2 with rate_func := rate_func } else a2

/-- The closed `AnimationType` variant set over the seven property types. -/
inductive AnimationType where
  | StrokeColor : Animation StrokeColor → AnimationType
  | FillColor : Animation FillColor → AnimationType
  | Position : Animation Position → AnimationType
  | Angle : Animation Angle → AnimationType
  | Size : Animation Size → AnimationType
  | Opacity : Animation Opacity → AnimationType
  | PathCompletion : Animation PathCompletion → AnimationType
deriving DecidableEq, Repr

/-- Dispatch helper: the `start_time` field of the wrapped animation
(mirrors the per-variant dispatch of `EntityAnimations::start_time`). -/
def AnimationType.start_time : AnimationType → ℚ
  | AnimationType.StrokeColor animation => animation.start_time
  | AnimationType.FillColor animation => animation.start_time
  | AnimationType.Position animation => animation.start_time
  | AnimationType.Angle animation => animation.start_time
  | AnimationType.Size animation => animation.start_time
  | AnimationType.Opacity animation => animation.start_time
  | AnimationType.PathCompletion animation => animation.start_time

/-- Dispatch helper: the `duration` field of the wrapped animation. -/
def AnimationType.duration : AnimationType → ℚ
  | AnimationType.StrokeColor animation => animation.duration
  | AnimationType.FillColor animation => animation.duration
  | AnimationType.Position animation => animation.duration
  | AnimationType.Angle animation => animation.duration
  | AnimationType.Size animation => animation.duration
  | AnimationType.Opacity animation => animation.duration
  | AnimationType.PathCompletion animation => animation.duration

/-- Dispatch helper: the `rate_func` field of the wrapped animation. -/
def AnimationType.rate_func : AnimationType → EaseType
  | AnimationType.StrokeColor animation => animation.rate_func
  | AnimationType.FillColor animation => animation.rate_func
  | AnimationType.Position animation => animation.rate_func
  | AnimationType.Angle animation => animation.rate_func
  | AnimationType.Size animation => animation.rate_func
  | AnimationType.Opacity animation => animation.rate_func
  | AnimationType.PathCompletion animation => animation.rate_func

/-- Dispatch helper: all three explicit-flag booleans of the wrapped
animation are still in the defaulted (`true`) state. -/
def AnimationType.defaulted : AnimationType → Bool
  | AnimationType.StrokeColor a => a.init_duration && a.init_start_time && a.init_rate_func
  | AnimationType.FillColor a => a.init_duration && a.init_start_time && a.init_rate_func
  | AnimationType.Position a => a.init_duration && a.init_start_time && a.init_rate_func
  | AnimationType.Angle a => a.init_duration && a.init_start_time && a.init_rate_func
  | AnimationType.Size a => a.init_duration && a.init_start_time && a.init_rate_func
  | AnimationType.Opacity a => a.init_duration && a.init_start_time && a.init_rate_func
  | AnimationType.PathCompletion a => a.init_duration && a.init_start_time && a.init_rate_func

/-- The per-object batch `EntityAnimations`: the owning entity plus the
sequence of heterogeneous animations authored together. -/
structure EntityAnimations where
  entity : Entity
  animations : List AnimationType
deriving DecidableEq, Repr

/-- `EntityAnimations::start_time`: the `start_time` of the first animation
in the sequence. The Rust accessor unwraps `get(0)` and panics on an empty
batch; the panic is embedded as `none`. -/
def EntityAnimations.start_time (e : EntityAnimations) : Option ℚ :=
  (e.animations.get? 0).map fun animation =>
    match animation with
    | AnimationType.StrokeColor animation => animation.start_time
    | AnimationType.FillColor animation => animation.start_time
    | AnimationType.Position animation => animation.start_time
    | AnimationType.Angle animation => animation.start_time
    | AnimationType.Size animation => animation.start_time
    | AnimationType.Opacity animation => animation.start_time
    | AnimationType.PathCompletion animation => animation.start_time

/-- `EntityAnimations::set_properties`: apply the free `set_properties` to
every animation in the batch through the per-variant dispatch. -/
def EntityAnimations.set_properties (e : EntityAnimations) (start_time duration : ℚ)
    (rate_func : EaseType) : EntityAnimations :=
  { e with animations := e.animations.map fun animation =>
      match animation with
      | AnimationType.StrokeColor animation =>
          AnimationType.StrokeColor (animation.set_properties start_time duration rate_func)
      | AnimationType.FillColor animation =>
          AnimationType.FillColor (animation.set_properties start_time duration rate_func)
      | AnimationType.Position animation =>
          AnimationType.Position (animation.set_properties start_time duration rate_func)
      | AnimationType.Angle animation =>
          AnimationType.Angle (animation.set_properties start_time duration rate_func)
      | AnimationType.Size animation =>
          AnimationType.Size (animation.set_properties start_time duration rate_func)
      | AnimationType.Opacity animation =>
          AnimationType.Opacity (animation.set_properties start_time duration rate_func)
      | AnimationType.PathCompletion animation =>
          AnimationType.PathCompletion (animation.set_properties start_time duration rate_func) }

/-- One scheduler tick on a position animation paired with its live
property: apply `update_position` and carry both results forward. -/
def stepPosition (prog : ℚ) (s : Animation Position × Position) :
    Animation Position × Position :=
  s.1.update_position s.2 prog

/-! ## Helper lemmas about `set_properties` -/

/-- The bulk call writes `start_time` exactly when its flag is defaulted. -/
lemma Animation.set_properties_start_time {T : Type} (a : Animation T) (s d : ℚ)
    (r : EaseType) :
    (a.set_properties s d r).start_time = if a.init_start_time then s else a.start_time := by
  obtain ⟨b, e, du, st, rf, idu, ist, irf⟩ := a
  cases idu <;> cases ist <;> cases irf <;> rfl

/-- The bulk call writes `duration` exactly when its flag is defaulted. -/
lemma Animation.set_properties_duration {T : Type} (a : Animation T) (s d : ℚ)
    (r : EaseType) :
    (a.set_properties s d r).duration = if a.init_duration then d else a.duration := by
  obtain ⟨b, e, du, st, rf, idu, ist, irf⟩ := a
  cases idu <;> cases ist <;> cases irf <;> rfl

/-- The bulk call writes `rate_func` exactly when its flag is defaulted. -/
lemma Animation.set_properties_rate_func {T : Type} (a : Animation T) (s d : ℚ)
    (r : EaseType) :
    (a.set_properties s d r).rate_func = if a.init_rate_func then r else a.rate_func := by
  obtain ⟨b, e, du, st, rf, idu, ist, irf⟩ := a
  cases idu <;> cases ist <;> cases irf <;> rfl

/-- The bulk call never touches `begin`, `end` or the three flags. -/
lemma Animation.set_properties_rest {T : Type} (a : Animation T) (s d : ℚ) (r : EaseType) :
    (a.set_properties s d r).begin = a.begin ∧
    (a.set_properties s d r).«end» = a.«end» ∧
    (a.set_properties s d r).init_duration = a.init_duration ∧
    (a.set_properties s d r).init_start_time = a.init_start_time ∧
    (a.set_properties s d r).init_rate_func = a.init_rate_func := by
  obtain ⟨b, e, du, st, rf, idu, ist, irf⟩ := a
  cases idu <;> cases ist <;> cases irf <;> exact ⟨rfl, rfl, rfl, rfl, rfl⟩

/-- C1. For every animation and each timing field: once the fluent setter
(`with_duration` / `with_start_time` / `with_rate_func`) has been called, a
later bulk `set_properties` leaves that field's value unchanged, while a
field whose flag is still defaulted is overwritten with the bulk value. -/
theorem c1_explicit_timing_immune_to_bulk {T : Type} (a : Animation T) (d s : ℚ)
    (r : EaseType) (s2 d2 : ℚ) (r2 : EaseType) :
    ((a.with_duration d).set_properties s2 d2 r2).duration = d ∧
    ((a.with_start_time s).set_properties s2 d2 r2).start_time = s ∧
    ((a.with_rate_func r).set_properties s2 d2 r2).rate_func = r ∧
    (a.init_duration = true → (a.set_properties s2 d2 r2).duration = d2) ∧
    (a.init_start_time = true → (a.set_properties s2 d2 r2).start_time = s2) ∧
    (a.init_rate_func = true → (a.set_properties s2 d2 r2).rate_func = r2) := by
  refine ⟨?_, ?_, ?_, ?_, ?_, ?_⟩
  · simp [Animation.set_properties_duration, Animation.with_duration]
  · simp [Animation.set_properties_start_time, Animation.with_start_time]
  · simp [Animation.set_properties_rate_func, Animation.with_rate_func]
  · intro h; simp [Animation.set_properties_duration, h]
  · intro h; simp [Animation.set_properties_start_time, h]
  · intro h; simp [Animation.set_properties_rate_func, h]

/-- Witness for C1 at a concrete animation: an explicitly set duration (5)
survives a bulk call supplying 9, while the defaulted duration of a fresh
`to` animation is overwritten with 9. -/
theorem c1_witness :
    (((Animation.to (⟨0, 0⟩ : Position)).with_duration 5).set_properties 7 9
        EaseType.Linear).duration = 5 ∧
    ((Animation.to (⟨0, 0⟩ : Position)).set_properties 7 9 EaseType.Linear).duration = 9 := by
  have h := c1_explicit_timing_immune_to_bulk (Animation.to (⟨0, 0⟩ : Position)) 5 6
    EaseType.Quint 7 9 EaseType.Linear
  exact ⟨h.1, h.2.2.2.1 rfl⟩

/-- C3. For every animation built via `to(x)` (begin unset): the first
`update` leaves the property unchanged and captures `begin` from it; a
second `update` with progress 1 then sets the property to `x` exactly,
given the interpolation contract at progress 1. -/
theorem c3_to_arms_then_hits_target {T : Type} [Interpolate T] (x p : T) (prog1 : ℚ)
    (h : Interpolate.interp p x 1 = x) :
    ((Animation.to x).update p prog1).2 = p ∧
    ((Animation.to x).update p prog1).1.begin = some p ∧
    (((Animation.to x).update p prog1).1.update (((Animation.to x).update p prog1).2) 1).2
      = x := by
  refine ⟨rfl, rfl, ?_⟩
  simpa [Animation.to, Animation.update] using h

/-- Witness for C3 at concrete positions: target (3,4), initial property
(1,2); the first call only arms, the second call at progress 1 lands on
(3,4). -/
theorem c3_witness :
    ((Animation.to (⟨3, 4⟩ : Position)).update ⟨1, 2⟩ (1/2)).2 = ⟨1, 2⟩ ∧
    ((Animation.to (⟨3, 4⟩ : Position)).update ⟨1, 2⟩ (1/2)).1.begin = some ⟨1, 2⟩ ∧
    (((Animation.to (⟨3, 4⟩ : Position)).update ⟨1, 2⟩ (1/2)).1.update
        (((Animation.to (⟨3, 4⟩ : Position)).update ⟨1, 2⟩ (1/2)).2) 1).2 = ⟨3, 4⟩ :=
  c3_to_arms_then_hits_target (⟨3, 4⟩ : Position) ⟨1, 2⟩ (1/2) (by
    show Position.interp ⟨1, 2⟩ ⟨3, 4⟩ 1 = ⟨3, 4⟩
    simp [Position.interp, Position.mk.injEq])

/-- C5. `init_from_target` replaces a `From` end with the supplied absolute
value and is the identity on the animation state (bit-identical) whenever
`end` is not `From` — in particular on any second call after resolution. -/
theorem c5_resolve_target_semantics {T : Type} (a : Animation T) (v : T) :
    (∀ ent, a.«end» = Value.From ent →
        a.init_from_target v = { a with «end» := Value.Absolute v }) ∧
    ((∀ ent, a.«end» ≠ Value.From ent) → a.init_from_target v = a) := by
  obtain ⟨b, e, du, st, rf, idu, ist, irf⟩ := a
  cases e with
  | Absolute t => exact ⟨fun ent h => Value.noConfusion h, fun _ => rfl⟩
  | Relative t => exact ⟨fun ent h => Value.noConfusion h, fun _ => rfl⟩
  | From ent0 => exact ⟨fun ent _ => rfl, fun h => absurd rfl (h ent0)⟩

/-- Witness for C5: resolving a `to_target 7` position animation with (1,2)
rewrites its end to `Absolute (1,2)`; resolving a `to (3,4)` animation is the
identity. -/
theorem c5_witness :
    (Animation.to_target 7 : Animation Position).init_from_target ⟨1, 2⟩ =
      { (Animation.to_target 7 : Animation Position) with «end» := Value.Absolute ⟨1, 2⟩ } ∧
    (Animation.to (⟨3, 4⟩ : Position)).init_from_target ⟨1, 2⟩ = Animation.to ⟨3, 4⟩ := by
  have h1 := c5_resolve_target_semantics (Animation.to_target 7 : Animation Position) ⟨1, 2⟩
  have h2 := c5_resolve_target_semantics (Animation.to (⟨3, 4⟩ : Position)) ⟨1, 2⟩
  exact ⟨h1.1 7 rfl, h2.2 (fun ent h => Value.noConfusion h)⟩

/-- C7. The generic `update` is a silent no-op — state and property both
unchanged, no error — whenever `end` is `Relative` (any begin state) or an
unresolved `From`. -/
theorem c7_update_noop_on_relative_or_unresolved {T : Type} [Interpolate T]
    (a : Animation T) (p : T) (prog : ℚ) :
    (∀ d, a.«end» = Value.Relative d → a.update p prog = (a, p)) ∧
    (∀ ent, a.«end» = Value.From ent → a.update p prog = (a, p)) := by
  obtain ⟨b, e, du, st, rf, idu, ist, irf⟩ := a
  constructor
  · intro d h
    replace h : e = Value.Relative d := h
    subst h
    cases b <;> rfl
  · intro ent h
    replace h : e = Value.From ent := h
    subst h
    cases b <;> rfl

/-- Witness for C7: a `by (1,1)` position animation (Relative end) and an
unresolved `to_target 5` animation are both left untouched by `update`, and
the property keeps its value (0,0). -/
theorem c7_witness :
    (Animation.«by» (⟨1, 1⟩ : Position)).update ⟨0, 0⟩ 1 =
      (Animation.«by» ⟨1, 1⟩, ⟨0, 0⟩) ∧
    (Animation.to_target 5 : Animation Position).update ⟨0, 0⟩ 1 =
      (Animation.to_target 5, ⟨0, 0⟩) := by
  have h1 := c7_update_noop_on_relative_or_unresolved
    (Animation.«by» (⟨1, 1⟩ : Position)) ⟨0, 0⟩ 1
  have h2 := c7_update_noop_on_relative_or_unresolved
    (Animation.to_target 5 : Animation Position) ⟨0, 0⟩ 1
  exact ⟨h1.1 (⟨1, 1⟩ : Position) rfl, h2.2 5 rfl⟩

/-- C9. Every `update` call (and every `update_position` call) leaves
`duration`, `start_time`, `rate_func` and the three explicit flags exactly
as they were: only `begin`, `end` and the property are ever mutated. -/
theorem c9_update_preserves_timing {T : Type} [Interpolate T] (a : Animation T) (p : T)
    (prog : ℚ) (ap : Animation Position) (pp : Position) (prog2 : ℚ) :
    ((a.update p prog).1.duration = a.duration ∧
     (a.update p prog).1.start_time = a.start_time ∧
     (a.update p prog).1.rate_func = a.rate_func ∧
     (a.update p prog).1.init_duration = a.init_duration ∧
     (a.update p prog).1.init_start_time = a.init_start_time ∧
     (a.update p prog).1.init_rate_func = a.init_rate_func) ∧
    ((ap.update_position pp prog2).1.duration = ap.duration ∧
     (ap.update_position pp prog2).1.start_time = ap.start_time ∧
     (ap.update_position pp prog2).1.rate_func = ap.rate_func ∧
     (ap.update_position pp prog2).1.init_duration = ap.init_duration ∧
     (ap.update_position pp prog2).1.init_start_time = ap.init_start_time ∧
     (ap.update_position pp prog2).1.init_rate_func = ap.init_rate_func) := by
  constructor
  · obtain ⟨b, e, du, st, rf, idu, ist, irf⟩ := a
    cases b <;> cases e <;> exact ⟨rfl, rfl, rfl, rfl, rfl, rfl⟩
  · obtain ⟨b, e, du, st, rf, idu, ist, irf⟩ := ap
    cases b <;> cases e <;> exact ⟨rfl, rfl, rfl, rfl, rfl, rfl⟩

/-- C4. With `begin` set and a `Relative` end, `update_position` rewrites the
end to `Absolute (begin + delta)` in place, touching nothing else and leaving
the property unchanged on that call; the next call then interpolates through
the `Absolute` branch. -/
theorem c4_relative_converts_in_place (a : Animation Position) (p : Position) (prog : ℚ)
    (b d : Position) (h1 : a.begin = some b) (h2 : a.«end» = Value.Relative d) :
    a.update_position p prog = ({ a with «end» := Value.Absolute (b + d) }, p) ∧
    ∀ (prog2 : ℚ) (q : Position),
      (({ a with «end» := Value.Absolute (b + d) } : Animation Position).update_position
          q prog2).2 = Interpolate.interp b (b + d) prog2 := by
  obtain ⟨b0, e0, du, st, rf, idu, ist, irf⟩ := a
  replace h1 : b0 = some b := h1
  replace h2 : e0 = Value.Relative d := h2
  subst h1
  subst h2
  exact ⟨rfl, fun prog2 q => rfl⟩

/-- Witness for C4: a `by (1,1)` animation whose begin was already captured
as (2,2) has its end rewritten to `Absolute ((2,2)+(1,1))` while the property
stays at (9,9). -/
theorem c4_witness :
    ({ Animation.«by» (⟨1, 1⟩ : Position) with
        begin := some (⟨2, 2⟩ : Position) }).update_position ⟨9, 9⟩ (1/3) =
      ({ Animation.«by» (⟨1, 1⟩ : Position) with
          begin := some (⟨2, 2⟩ : Position),
          «end» := Value.Absolute ((⟨2, 2⟩ : Position) + (⟨1, 1⟩ : Position)) }, ⟨9, 9⟩) :=
  (c4_relative_converts_in_place
    { Animation.«by» (⟨1, 1⟩ : Position) with begin := some (⟨2, 2⟩ : Position) }
    ⟨9, 9⟩ (1/3) ⟨2, 2⟩ ⟨1, 1⟩ rfl rfl).1

/-- C10. With `begin` unset and a `Relative` end, `update_position` is a
complete no-op — the arm branch requires an `Absolute` end — so an animation
built via `by (delta)` is never armed by any number of `update_position`
calls and the property never moves. -/
theorem c10_unarmed_relative_noop (a : Animation Position) (p : Position) (prog : ℚ)
    (d : Position) (h1 : a.begin = none) (h2 : a.«end» = Value.Relative d) :
    a.update_position p prog = (a, p) ∧
    ∀ n : ℕ, (stepPosition prog)^[n] (Animation.«by» d, p) = (Animation.«by» d, p) := by
  constructor
  · obtain ⟨b0, e0, du, st, rf, idu, ist, irf⟩ := a
    replace h1 : b0 = none := h1
    replace h2 : e0 = Value.Relative d := h2
    subst h1
    subst h2
    rfl
  · intro n
    induction n with
    | zero => rfl
    | succ k ih =>
        rw [Function.iterate_succ_apply]
        exact ih

/-- Witness for C10: one `update_position` call on `by (2,3)` changes
nothing, and three iterated calls starting from property (0,0) still leave
both the animation and the property untouched. -/
theorem c10_witness :
    (Animation.«by» (⟨2, 3⟩ : Position)).update_position ⟨0, 0⟩ (1/2) =
      (Animation.«by» ⟨2, 3⟩, ⟨0, 0⟩) ∧
    (stepPosition (1/2))^[3] (Animation.«by» (⟨2, 3⟩ : Position), ⟨0, 0⟩) =
      (Animation.«by» ⟨2, 3⟩, ⟨0, 0⟩) := by
  have h := c10_unarmed_relative_noop (Animation.«by» (⟨2, 3⟩ : Position)) ⟨0, 0⟩ (1/2)
    ⟨2, 3⟩ rfl rfl
  exact ⟨h.1, h.2 3⟩

/-- C2 (code evaluation at the failing input). An `Animation<Position>` built
via `by (1,1)` with the property starting at (0,0) is updated three times
(progress 3/10, 1/2, then 1): the code leaves the property at (0,0) and the
animation in its initial state — it is never armed, the `Relative` end is
never converted, and progress 1 does not yield begin + delta. -/
theorem c2_by_animation_never_moves :
    stepPosition 1 (stepPosition (1/2) (stepPosition (3/10)
      (Animation.«by» (⟨1, 1⟩ : Position), ⟨0, 0⟩))) =
    (Animation.«by» ⟨1, 1⟩, ⟨0, 0⟩) :=
  rfl

/-- C6. The batch accessor returns the `start_time` of the *first* animation
in the sequence, whatever the rest of the batch holds; on an empty batch the
access yields no value (the Rust accessor panics) instead of a silent 0.0. -/
theorem c6_batch_start_time_is_first (ent : Entity) (a : AnimationType)
    (rest : List AnimationType) :
    EntityAnimations.start_time ⟨ent, a :: rest⟩ = some a.start_time ∧
    EntityAnimations.start_time ⟨ent, ([] : List AnimationType)⟩ = none := by
  refine ⟨?_, rfl⟩
  cases a <;> rfl

/-- A bulk call on an animation with all three flags defaulted writes all
three timing fields. -/
lemma Animation.set_properties_of_defaulted {T : Type} (a : Animation T) (s d : ℚ)
    (r : EaseType) (h1 : a.init_duration = true) (h2 : a.init_start_time = true)
    (h3 : a.init_rate_func = true) :
    (a.set_properties s d r).start_time = s ∧
    (a.set_properties s d r).duration = d ∧
    (a.set_properties s d r).rate_func = r := by
  simp [Animation.set_properties_start_time, Animation.set_properties_duration,
    Animation.set_properties_rate_func, h1, h2, h3]

/-- C8. On a batch in which every animation still has all three flags
defaulted, the bulk `set_properties (s, d, r)` sets `start_time = s`,
`duration = d` and `rate_func = r` identically on every animation, across
every property-type variant. -/
theorem c8_bulk_sets_whole_defaulted_batch (e : EntityAnimations) (s d : ℚ) (r : EaseType)
    (h : ∀ a ∈ e.animations, a.defaulted = true) :
    ∀ a ∈ (e.set_properties s d r).animations,
      a.start_time = s ∧ a.duration = d ∧ a.rate_func = r := by
  intro a ha
  simp only [EntityAnimations.set_properties, List.mem_map] at ha
  obtain ⟨a0, ha0, rfl⟩ := ha
  have hd := h a0 ha0
  cases a0 <;>
  · simp only [AnimationType.defaulted, Bool.and_eq_true] at hd
    obtain ⟨⟨h1, h2⟩, h3⟩ := hd
    have hfields := Animation.set_properties_of_defaulted _ s d r h1 h2 h3
    simpa [AnimationType.start_time, AnimationType.duration, AnimationType.rate_func]
      using hfields

/-- Witness for C8 on a concrete heterogeneous two-animation batch (a
Position `to` and an Opacity `by`, both fully defaulted): the Position
member of the bulk-updated batch carries exactly the supplied timing. -/
theorem c8_witness :
    (AnimationType.Position
        ((Animation.to (⟨0, 0⟩ : Position)).set_properties 2 3 EaseType.Linear)).start_time
      = 2 ∧
    (AnimationType.Position
        ((Animation.to (⟨0, 0⟩ : Position)).set_properties 2 3 EaseType.Linear)).duration
      = 3 ∧
    (AnimationType.Position
        ((Animation.to (⟨0, 0⟩ : Position)).set_properties 2 3 EaseType.Linear)).rate_func
      = EaseType.Linear :=
  c8_bulk_sets_whole_defaulted_batch
    ⟨0, [AnimationType.Position (Animation.to ⟨0, 0⟩),
         AnimationType.Opacity (Animation.«by» ⟨1⟩)]⟩ 2 3 EaseType.Linear
    (by intro a ha
        simp only [List.mem_cons, List.not_mem_nil, or_false] at ha
        rcases ha with h | h <;> subst h <;> rfl)
    (AnimationType.Position
      ((Animation.to (⟨0, 0⟩ : Position)).set_properties 2 3 EaseType.Linear))
    (by exact List.mem_cons_self _ _)
